import Mathlib

/-!
Verification development for the avif-converter pipeline (src/main.go).

The Go program is shallowly embedded: pure string manipulation is translated
directly; every effectful call (os.Stat existence checks, os.CreateTemp,
the avifenc subprocess, os.Rename, copyFile, os.Remove, final os.Stat) is
modelled by an explicit environment recording that call's outcome, and the
filesystem writes a worker performs are recorded as an action trace whose
replay semantics determines which paths exist afterwards.

Path functions model Go's path/filepath on slash-separated, already-clean
paths (the only inputs the program feeds them): filepath.Clean normalization
of redundant separators and dot segments is elided.
-/

namespace AvifConverter

/-- Model of Go `filepath.Ext` applied after reversing the character list:
scan from the end of the path, stop at a path separator, and return the
suffix starting at the last dot (dot included). -/
def extFromRev : List Char → List Char → String
  | [], _ => ""
  | c :: rest, acc =>
    if c = '/' then ""
    else if c = '.' then String.mk ('.' :: acc)
    else extFromRev rest (c :: acc)

/-- Go `filepath.Ext`: the suffix beginning at the final dot in the final
slash-separated element of the path; empty if there is no dot. -/
def pathExt (p : String) : String :=
  extFromRev p.data.reverse []

/-- Go `filepath.Base`: the last element of the path after trailing slashes
are removed; "." for the empty path, "/" for a path of only slashes. -/
def pathBase (p : String) : String :=
  if p = "" then "."
  else
    let rev := p.data.reverse.dropWhile (fun c => c = '/')
    if rev = [] then "/"
    else String.mk (rev.takeWhile (fun c => c ≠ '/')).reverse

/-- Go `filepath.Dir` on clean paths: everything before the final slash;
"." when there is no slash, "/" when the only slash is leading. -/
def pathDir (p : String) : String :=
  let rev := p.data.reverse
  let rest := rev.dropWhile (fun c => c ≠ '/')
  if rest = [] then "."
  else
    let rest2 := rest.dropWhile (fun c => c = '/')
    if rest2 = [] then "/" else String.mk rest2.reverse

/-- Go `strings.TrimSuffix`: drop the suffix if present, else return
unchanged (computed on the character list). -/
def trimSuffix (s suf : String) : String :=
  if suf.data.isSuffixOf s.data then String.mk (s.data.take (s.data.length - suf.data.length))
  else s

/-- Go `strings.TrimPrefix(s, ".")`: strip one leading dot if present. -/
def trimLeadingDot (s : String) : String :=
  match s.data with
  | '.' :: rest => String.mk rest
  | _ => s

/-- Go `strings.ToLower` on the ASCII extensions and format flags the
program lowercases. -/
def strToLower (s : String) : String :=
  String.mk (s.data.map Char.toLower)

/-- Go `filepath.Join` of a directory and a base name, for clean inputs:
empty directory yields the name, otherwise the slash-joined concatenation. -/
def joinPath (dir name : String) : String :=
  if dir = "" then name else dir ++ "/" ++ name

/-- Model of Go `time.Time` restricted to the fields the program's
`Format("20060102")` call reads: calendar year, month and day of the
source file's modification time. -/
structure GoTime where
  year : Nat
  month : Nat
  day : Nat
deriving DecidableEq

/-- Two-digit zero-padded decimal, as the `01`/`02` components of Go's
`Format("20060102")` render month and day. -/
def pad2 (n : Nat) : String :=
  String.mk [Nat.digitChar (n / 10 % 10), Nat.digitChar (n % 10)]

/-- Four-digit zero-padded decimal, as the `2006` component of Go's
`Format("20060102")` renders years 0–9999. -/
def pad4 (n : Nat) : String :=
  String.mk [Nat.digitChar (n / 1000 % 10), Nat.digitChar (n / 100 % 10),
             Nat.digitChar (n / 10 % 10), Nat.digitChar (n % 10)]

/-- Go `t.Format("20060102")`: the 8-digit YYYYMMDD rendering. -/
def formatYYYYMMDD (t : GoTime) : String :=
  pad4 t.year ++ pad2 t.month ++ pad2 t.day

/-- Hex rendering of one byte, as `hex.EncodeToString` renders each byte of
the 3 random bytes: two lowercase hex digits. -/
def hexByte (b : Nat) : String :=
  String.mk [Nat.digitChar (b / 16 % 16), Nat.digitChar (b % 16)]

/-- Go `fmt.Sprintf("%x", n)` on a nonnegative integer: minimal-length
lowercase hex, no zero padding; `0` renders as "0". -/
def hexNoPad (n : Nat) : String :=
  if n < 16 then String.mk [Nat.digitChar n]
  else hexNoPad (n / 16) ++ String.mk [Nat.digitChar (n % 16)]
termination_by n
decreasing_by exact Nat.div_lt_self (by omega) (by omega)

/-- Outcome of the worker's entropy draw in `makeOutputFilename`:
either `rand.Read` filled 3 bytes (each < 256 at runtime), or it failed and
the fallback reads the wall clock's `UnixNano` count. -/
inductive Entropy where
  | bytes (b0 b1 b2 : Nat)
  | failWithClock (nanos : Nat)
deriving DecidableEq

/-- Random token of `makeOutputFilename` (src/main.go lines 245–254):
`hex.EncodeToString` of the 3 random bytes on success, else
`fmt.Sprintf("%x", time.Now().UnixNano()&0xfffffff)`; the mask `0xfffffff`
on a nonnegative int64 is `% 2^28`. -/
def rndToken : Entropy → String
  | .bytes b0 b1 b2 => hexByte b0 ++ hexByte b1 ++ hexByte b2
  | .failWithClock nanos => hexNoPad (nanos % 0x10000000)

/-- Go struct `FileInfo` (src/main.go lines 18–23): path, modification
time, normalized extension, byte size. -/
structure FileInfo where
  Path : String
  ModTime : GoTime
  Ext : String
  Size : Int
deriving DecidableEq

/-- Go `makeOutputFilename` (src/main.go lines 235–261). With `keepName`,
strip the source extension from its base name and emit
`[pfx_]name.avif`; otherwise emit `[pfx_]YYYYMMDD_token.avif` where the
token comes from the entropy draw. -/
def makeOutputFilename (f : FileInfo) (pfx : String) (keepName : Bool)
    (ent : Entropy) : String :=
  if keepName then
    let base := pathBase f.Path
    let nameNoExt := trimSuffix base (pathExt base)
    if pfx ≠ "" then pfx ++ "_" ++ nameNoExt ++ ".avif"
    else nameNoExt ++ ".avif"
  else
    let rnd := rndToken ent
    let dateStr := formatYYYYMMDD f.ModTime
    if pfx ≠ "" then pfx ++ "_" ++ dateStr ++ "_" ++ rnd ++ ".avif"
    else dateStr ++ "_" ++ rnd ++ ".avif"

/-! ## Scanner (src/main.go lines 179–231) -/

/-- One directory entry visited by `filepath.WalkDir`: its path, whether it
is a directory, whether the walk delivered an error for it, whether
`d.Info()` failed, and the stat data otherwise. -/
structure DirEntry where
  path : String
  isDir : Bool
  walkErr : Bool
  statErr : Bool
  modTime : GoTime
  size : Int
deriving DecidableEq

/-- Extension the scanner derives for an entry (src/main.go line 204):
`strings.ToLower(strings.TrimPrefix(filepath.Ext(path), "."))`. -/
def entryExt (e : DirEntry) : String :=
  strToLower (trimLeadingDot (pathExt e.path))

/-- Allow-set of the scanner (src/main.go lines 185–193). -/
def extAllowed (s : String) : Bool :=
  ["jpg", "jpeg", "png", "bmp", "tiff", "webp", "heic"].contains s

/-- Body of the scanner's walk callback for one entry (src/main.go
lines 195–229): skip walk errors, directories, empty extensions,
extensions outside the allow-set and stat failures; fold `jpeg` to `jpg`;
otherwise build the FileInfo. -/
def processEntry (e : DirEntry) : Option FileInfo :=
  if e.walkErr then none
  else if e.isDir then none
  else
    let ext := entryExt e
    if ext = "" then none
    else if extAllowed ext = false then none
    else
      let ext := if ext = "jpeg" then "jpg" else ext
      if e.statErr then none
      else some { Path := e.path, ModTime := e.modTime, Ext := ext, Size := e.size }

/-- Go `scanDirectory` (src/main.go lines 181–231) over the walk's entry
sequence: the FileInfo list in walk order and the per-extension count map
(modelled as a total function defaulting to 0, matching a Go map read). -/
def scanDirectory : List DirEntry → List FileInfo × (String → Nat)
  | [] => ([], fun _ => 0)
  | e :: rest =>
    match processEntry e with
    | none => scanDirectory rest
    | some fi =>
      let res := scanDirectory rest
      (fi :: res.1, fun k => if k = fi.Ext then res.2 k + 1 else res.2 k)

/-! ## Format normalization and job selection (src/main.go lines 53–103) -/

/-- Normalization of the requested format flag (src/main.go lines 54–59):
non-empty formats get one leading dot stripped, are lowercased, and the
literal `jpeg` is folded to `jpg`. -/
def normalizeFormat (raw : String) : String :=
  if raw = "" then raw
  else
    let f := strToLower (trimLeadingDot raw)
    if f = "jpeg" then "jpg" else f

/-- Fatal no-files check (src/main.go line 84): with the count map total
with default 0, `!ok || c == 0` is exactly a zero count. -/
def formatCheckFails (counts : String → Nat) (fmt : String) : Bool :=
  counts fmt == 0

/-- Job-list construction (src/main.go lines 98–103): the scanned files
whose normalized extension equals the requested format. -/
def selectToConvert (files : List FileInfo) (fmt : String) : List FileInfo :=
  files.filter (fun f => f.Ext == fmt)

/-! ## Path uniquifier (src/main.go lines 337–353) -/

/-- Loop body of `ensureUniquePath` (src/main.go lines 346–351): for the
remaining `fuel` values of the counter starting at `i`, build the
candidate `{name}-{i}{ext}` in `dir` and return the first one the
existence check rejects; exhausting the fuel is the Go loop reaching
`i = 1000` and falling through to the error return. -/
def uniqueFrom (ex : String → Bool) (path dir name ext : String) :
    Nat → Nat → Except String String
  | _, 0 => .error ("could not find unique name for " ++ path)
  | i, fuel + 1 =>
    let candidate := joinPath dir (name ++ "-" ++ Nat.repr i ++ ext)
    if ex candidate = false then .ok candidate
    else uniqueFrom ex path dir name ext (i + 1) fuel

/-- Go `ensureUniquePath` (src/main.go lines 338–353). `ex p` models
"`os.Stat(p)` did not report not-exists", the condition under which the
Go code keeps searching. The loop runs `i = 1 .. 999`. -/
def ensureUniquePath (ex : String → Bool) (path : String) :
    Except String String :=
  if ex path = false then .ok path
  else
    let dir := pathDir path
    let base := pathBase path
    let ext := pathExt base
    let name := trimSuffix base ext
    uniqueFrom ex path dir name ext 1 999

/-- Candidate `{base}-{n}{ext}` that `ensureUniquePath` tries at counter
value `n`. -/
def uniqueCandidate (path : String) (n : Nat) : String :=
  joinPath (pathDir path)
    (trimSuffix (pathBase path) (pathExt (pathBase path)) ++ "-" ++
      Nat.repr n ++ pathExt (pathBase path))

/-! ## Conversion worker (src/main.go lines 263–335) -/

/-- Go struct `ConvertResult` (src/main.go lines 25–31); Go zero values
stand for "unset": empty destination, zero converted size, `none` error. -/
structure ConvertResult where
  Src : String
  Dst : String
  OrigBytes : Int
  ConvBytes : Int
  Err : Option String
deriving DecidableEq

/-- Filesystem writes a worker performs in the output directory:
`os.CreateTemp`, `os.Remove`, `os.Rename`, and the `os.Create` performed by
a successful `copyFile`. -/
inductive FsAction where
  | createTemp (p : String)
  | removeFile (p : String)
  | rename (src dst : String)
  | createFile (p : String)
deriving DecidableEq

/-- Outcomes of the effectful calls one job performs, in program order:
the existence check backing `ensureUniquePath`, `os.CreateTemp` (the temp
path on success), the `avifenc` run (diagnostic text on failure),
`os.Rename`, `copyFile`, the final `os.Stat` (size on success), and the
entropy draw consumed by `makeOutputFilename`. -/
structure WorkerEnv where
  fsExists : String → Bool
  tempFile : Option String
  encoderErr : Option String
  renameOk : Bool
  copyErr : Option String
  statSize : Option Int
  entropy : Entropy

/-- Result of one job: the ConvertResults sent on the results channel, the
filesystem actions performed after the uniquifier resolved, and the temp
path when temp creation succeeded. -/
structure JobOutcome where
  emitted : List ConvertResult
  actions : List FsAction
  tmpPath : Option String


/-- Final stat of the worker (src/main.go lines 324–331): on stat success
record the converted size and clear the error, on failure report
`stat output failed`. -/
def statStage (res : ConvertResult) (statSize : Option Int) : ConvertResult :=
  match statSize with
  | some n => { res with ConvBytes := n, Err := none }
  | none => { res with Err := some "stat output failed" }

/-- Placement stage of the worker (src/main.go lines 308–331): try
`os.Rename`; on rename failure fall back to `copyFile` and remove the temp
file (on copy success) or remove it and fail (on copy failure); then stat. -/
def placeStage (env : WorkerEnv) (res : ConvertResult)
    (tmpPath uniquePath : String) : List ConvertResult × List FsAction :=
  if env.renameOk then
    ([statStage res env.statSize], [.rename tmpPath uniquePath])
  else
    match env.copyErr with
    | some cerr =>
      ([{ res with Err := some ("save output failed: rename failed, copy: " ++ cerr) }],
       [.removeFile tmpPath])
    | none =>
      ([statStage res env.statSize],
       [.createFile uniquePath, .removeFile tmpPath])

/-- Encoder stage of the worker (src/main.go lines 298–306): on `avifenc`
failure remove the temp file and report; on success proceed to placement. -/
def encodeStage (env : WorkerEnv) (res : ConvertResult)
    (tmpPath uniquePath : String) : List ConvertResult × List FsAction :=
  match env.encoderErr with
  | some msg =>
    ([{ res with Err := some ("avifenc failed: " ++ msg) }], [.removeFile tmpPath])
  | none => placeStage env res tmpPath uniquePath

/-- One iteration of the worker loop (src/main.go lines 265–334): resolve
the output name and unique path, create the temp file, encode, place,
stat; every branch sends exactly one result. -/
def processJob (env : WorkerEnv) (fi : FileInfo) (outDir pfx : String)
    (keepName : Bool) : JobOutcome :=
  let res0 : ConvertResult :=
    { Src := fi.Path, Dst := "", OrigBytes := fi.Size, ConvBytes := 0, Err := none }
  let outName := makeOutputFilename fi pfx keepName env.entropy
  let outPath := joinPath outDir outName
  match ensureUniquePath env.fsExists outPath with
  | .error e =>
    { emitted := [{ res0 with Err := some ("unique output path fail: " ++ e) }],
      actions := [], tmpPath := none }
  | .ok uniquePath =>
    let res1 := { res0 with Dst := uniquePath }
    match env.tempFile with
    | none =>
      { emitted := [{ res1 with Err := some "create temp file" }],
        actions := [], tmpPath := none }
    | some tmpPath =>
      let tail := encodeStage env res1 tmpPath uniquePath
      { emitted := tail.1,
        actions := FsAction.createTemp tmpPath :: tail.2,
        tmpPath := some tmpPath }

/-- Unique-path outcome a job observes, for stating hypotheses about it. -/
def uniqueOutcome (env : WorkerEnv) (fi : FileInfo) (outDir pfx : String)
    (keepName : Bool) : Except String String :=
  ensureUniquePath env.fsExists
    (joinPath outDir (makeOutputFilename fi pfx keepName env.entropy))

/-- Replay of a worker's action trace at one path: whether a file exists at
`tmp` after the actions ran, starting from the temp file not existing. -/
def tmpExistsAfter (tmp : String) (as : List FsAction) : Bool :=
  as.foldl (fun b a =>
    match a with
    | .createTemp p => if p = tmp then true else b
    | .removeFile p => if p = tmp then false else b
    | .rename s d => if d = tmp then true else if s = tmp then false else b
    | .createFile p => if p = tmp then true else b) false

/-! ## Pool orchestrator and aggregator (src/main.go lines 120–177, 374–379) -/

/-- Worker-count coercion (src/main.go lines 126–129). -/
def effectiveWorkers (w : Int) : Int :=
  if w ≤ 0 then 1 else w

/-- Number of workers the `for i := 0; i < numWorkers; i++` loop
(src/main.go lines 130–133) starts. -/
def startedWorkers (w : Int) : Nat :=
  (effectiveWorkers w).toNat

/-- Aggregation loop (src/main.go lines 150–167): success count, failure
count, and byte totals accumulated over successes only. -/
def aggregateTotals (rs : List ConvertResult) : Nat × Nat × Int × Int :=
  rs.foldl (fun acc r =>
    match r.Err with
    | some _ => (acc.1, acc.2.1 + 1, acc.2.2.1, acc.2.2.2)
    | none => (acc.1 + 1, acc.2.1, acc.2.2.1 + r.OrigBytes, acc.2.2.2 + r.ConvBytes))
    (0, 0, 0, 0)

/-- Go `reductionPercent` (src/main.go lines 374–379), with float64
arithmetic modelled exactly over the rationals. -/
def reductionPercent (orig conv : Int) : ℚ :=
  if orig = 0 then 0 else (1 - (conv : ℚ) / (orig : ℚ)) * 100

/-! ## Dry-run slice of main (src/main.go lines 88–113) -/

/-- Observable steps of the dry-run slice of `main`: the `os.MkdirAll` on
the output directory, each `makeOutputFilename` call, each
`ensureUniquePath` call, and each printed preview line. -/
inductive Event where
  | mkdirAll (dir : String)
  | namerCall (src out : String)
  | uniquifierCall (p : String)
  | preview (src dst : String)
deriving DecidableEq

/-- Dry-run loop (src/main.go lines 108–111): one `makeOutputFilename`
call (drawing fresh entropy, indexed by `i`) and one preview line per
selected file. -/
def dryRunLoop (ents : Nat → Entropy) (outDir pfx : String) (kn : Bool) :
    Nat → List FileInfo → List Event
  | _, [] => []
  | i, f :: rest =>
    let o := makeOutputFilename f pfx kn (ents i)
    Event.namerCall f.Path o :: Event.preview f.Path (joinPath outDir o) ::
      dryRunLoop ents outDir pfx kn (i + 1) rest

/-- Dry-run slice of `main` (src/main.go lines 88–113): choose the output
directory, run `os.MkdirAll` on it, then preview each selected file. -/
def dryRunEvents (files : List FileInfo) (fmtN inputFlag outputFlag pfx : String)
    (kn : Bool) (ents : Nat → Entropy) : List Event :=
  let outDir := if outputFlag = "" then inputFlag else outputFlag
  Event.mkdirAll outDir ::
    dryRunLoop ents outDir pfx kn 0 (selectToConvert files fmtN)

/-- Directory-creation semantics of one event: only `os.MkdirAll` mutates
the set of existing directories, creating its argument when missing. -/
def applyEvent (dirs : List String) (e : Event) : List String :=
  match e with
  | .mkdirAll d => if dirs.contains d then dirs else d :: dirs
  | _ => dirs

/-- Replay of an event list over the set of existing directories. -/
def applyEvents (dirs : List String) (evs : List Event) : List String :=
  evs.foldl applyEvent dirs

/-! ## Lemmas about the path uniquifier -/

theorem uniqueFrom_ok_spec (ex : String → Bool) (path dir name ext : String) :
    ∀ fuel i q, uniqueFrom ex path dir name ext i fuel = Except.ok q →
      ∃ n, i ≤ n ∧ n < i + fuel ∧
        q = joinPath dir (name ++ "-" ++ Nat.repr n ++ ext) ∧ ex q = false ∧
        ∀ m, i ≤ m → m < n →
          ex (joinPath dir (name ++ "-" ++ Nat.repr m ++ ext)) = true := by
  intro fuel
  induction fuel with
  | zero => intro i q h; simp [uniqueFrom] at h
  | succ fuel ih =>
    intro i q h
    simp only [uniqueFrom] at h
    by_cases hex : ex (joinPath dir (name ++ "-" ++ Nat.repr i ++ ext)) = false
    · rw [if_pos hex] at h
      injection h with h
      subst h
      exact ⟨i, Nat.le_refl i, by omega, rfl, hex, fun m h1 h2 => by omega⟩
    · rw [if_neg hex] at h
      obtain ⟨n, h1, h2, h3, h4, h5⟩ := ih (i + 1) q h
      have hex' : ex (joinPath dir (name ++ "-" ++ Nat.repr i ++ ext)) = true := by
        revert hex; cases ex (joinPath dir (name ++ "-" ++ Nat.repr i ++ ext)) <;> simp
      refine ⟨n, by omega, by omega, h3, h4, fun m hm1 hm2 => ?_⟩
      rcases Nat.eq_or_lt_of_le hm1 with hm | hm
      · rw [← hm]; exact hex'
      · exact h5 m hm hm2

theorem uniqueFrom_error_spec (ex : String → Bool) (path dir name ext : String) :
    ∀ fuel i,
      (∀ m, i ≤ m → m < i + fuel →
        ex (joinPath dir (name ++ "-" ++ Nat.repr m ++ ext)) = true) →
      uniqueFrom ex path dir name ext i fuel =
        Except.error ("could not find unique name for " ++ path) := by
  intro fuel
  induction fuel with
  | zero => intro i _; rfl
  | succ fuel ih =>
    intro i hall
    simp only [uniqueFrom]
    have hi : ex (joinPath dir (name ++ "-" ++ Nat.repr i ++ ext)) = true :=
      hall i (Nat.le_refl i) (by omega)
    rw [if_neg (by simp [hi])]
    exact ih (i + 1) (fun m h1 h2 => hall m (by omega) (by omega))

/-- C3: for a candidate that does not exist the uniquifier returns it
unchanged; for an existing candidate it returns the first `{base}-{n}{ext}`
with n in 1..999 that does not exist, which is never the original path; and
if all 999 candidates exist it fails with the cannot-allocate-unique-name
error. -/
theorem ensureUniquePath_spec (ex : String → Bool) (path : String) :
    (ex path = false → ensureUniquePath ex path = Except.ok path) ∧
    (ex path = true → ∀ q, ensureUniquePath ex path = Except.ok q →
        q ≠ path ∧ ex q = false ∧
        ∃ n, 1 ≤ n ∧ n ≤ 999 ∧ q = uniqueCandidate path n ∧
          ∀ m, 1 ≤ m → m < n → ex (uniqueCandidate path m) = true) ∧
    (ex path = true → (∀ n, 1 ≤ n → n ≤ 999 → ex (uniqueCandidate path n) = true) →
        ensureUniquePath ex path =
          Except.error ("could not find unique name for " ++ path)) := by
  refine ⟨?_, ?_, ?_⟩
  · intro h
    rw [ensureUniquePath, if_pos h]
  · intro hex q hq
    rw [ensureUniquePath, if_neg (by simp [hex])] at hq
    obtain ⟨n, h1, h2, h3, h4, h5⟩ := uniqueFrom_ok_spec ex path _ _ _ 999 1 q hq
    refine ⟨?_, h4, n, h1, by omega, h3, fun m hm1 hm2 => h5 m hm1 hm2⟩
    intro hqp
    rw [hqp, hex] at h4
    cases h4
  · intro hex hall
    rw [ensureUniquePath, if_neg (by simp [hex])]
    exact uniqueFrom_error_spec ex path _ _ _ 999 1
      (fun m h1 h2 => hall m h1 (by omega))

/-- Existence check of the uniquifier witness scenario: the original
candidate and its first numeric variant already exist on disk. -/
def exTwo : String → Bool := fun s => ["out/a.avif", "out/a-1.avif"].contains s

theorem ensureUniquePath_spec_witness :
    exTwo "out/a.avif" = true ∧
    ("out/a-2.avif" ≠ "out/a.avif" ∧ exTwo "out/a-2.avif" = false ∧
      ∃ n, 1 ≤ n ∧ n ≤ 999 ∧ "out/a-2.avif" = uniqueCandidate "out/a.avif" n ∧
        ∀ m, 1 ≤ m → m < n → exTwo (uniqueCandidate "out/a.avif" m) = true) :=
  ⟨by decide,
   (ensureUniquePath_spec exTwo "out/a.avif").2.1 (by decide) "out/a-2.avif" (by rfl)⟩

/-! ## Aggregator arithmetic -/

/-- C8: the aggregate size-reduction percentage over the tallied totals is
`(1 - totalConverted/totalOriginal) * 100` when the original total is
non-zero and 0 when it is zero (float64 arithmetic modelled over ℚ). -/
theorem aggregate_reduction_formula (rs : List ConvertResult) :
    ((aggregateTotals rs).2.2.1 ≠ 0 →
      reductionPercent (aggregateTotals rs).2.2.1 (aggregateTotals rs).2.2.2 =
        (1 - ((aggregateTotals rs).2.2.2 : ℚ) / ((aggregateTotals rs).2.2.1 : ℚ)) * 100) ∧
    ((aggregateTotals rs).2.2.1 = 0 →
      reductionPercent (aggregateTotals rs).2.2.1 (aggregateTotals rs).2.2.2 = 0) := by
  constructor
  · intro h; rw [reductionPercent, if_neg h]
  · intro h; rw [reductionPercent, if_pos h]

/-- Result list of the aggregator witness: one success halving 200 bytes. -/
def rsHalf : List ConvertResult :=
  [{ Src := "in/a.jpg", Dst := "out/a.avif", OrigBytes := 200, ConvBytes := 100,
     Err := none }]

theorem aggregate_reduction_formula_witness :
    reductionPercent (aggregateTotals rsHalf).2.2.1 (aggregateTotals rsHalf).2.2.2 =
      (1 - ((aggregateTotals rsHalf).2.2.2 : ℚ) / ((aggregateTotals rsHalf).2.2.1 : ℚ)) * 100 :=
  (aggregate_reduction_formula rsHalf).1 (by decide)

/-! ## Pool orchestrator worker count -/

/-- C9: the orchestrator starts exactly the configured number of workers
when that count is positive, and exactly one worker when the configured
count is zero or negative. -/
theorem pool_worker_count (w : Int) :
    (0 < w → (startedWorkers w : Int) = w ∧ effectiveWorkers w = w) ∧
    (w ≤ 0 → startedWorkers w = 1 ∧ effectiveWorkers w = 1) := by
  constructor
  · intro h
    have h1 : ¬ w ≤ 0 := by omega
    refine ⟨?_, ?_⟩
    · rw [startedWorkers, effectiveWorkers, if_neg h1]
      exact Int.toNat_of_nonneg (by omega)
    · rw [effectiveWorkers, if_neg h1]
  · intro h
    constructor <;> simp [startedWorkers, effectiveWorkers, h]

theorem pool_worker_count_witness :
    ((startedWorkers 4 : Int) = 4 ∧ effectiveWorkers 4 = 4) ∧
    (startedWorkers (-2) = 1 ∧ effectiveWorkers (-2) = 1) :=
  ⟨(pool_worker_count 4).1 (by decide), (pool_worker_count (-2)).2 (by decide)⟩

/-! ## Lemmas about the scanner -/

theorem processEntry_ext_mem (e : DirEntry) (fi : FileInfo)
    (h : processEntry e = some fi) :
    fi.Ext ∈ ["jpg", "png", "bmp", "tiff", "webp", "heic"] := by
  by_cases hw : e.walkErr
  · simp [processEntry, hw] at h
  by_cases hd : e.isDir
  · simp [processEntry, hw, hd] at h
  by_cases h1 : entryExt e = ""
  · simp [processEntry, hw, hd, h1] at h
  by_cases h2 : extAllowed (entryExt e) = false
  · simp [processEntry, hw, hd, h1, h2] at h
  by_cases hs : e.statErr
  · simp [processEntry, hw, hd, h1, h2, hs] at h
  have hall : extAllowed (entryExt e) = true := by
    revert h2; cases extAllowed (entryExt e) <;> simp
  have hmem : entryExt e ∈ ["jpg", "jpeg", "png", "bmp", "tiff", "webp", "heic"] := by
    have := hall
    rw [extAllowed] at this
    simpa using this
  have hfi :
      fi = { Path := e.path, ModTime := e.modTime,
             Ext := (if entryExt e = "jpeg" then "jpg" else entryExt e),
             Size := e.size } := by
    simp only [processEntry] at h
    rw [if_neg hw, if_neg hd, if_neg h1, if_neg h2, if_neg hs] at h
    injection h with h
    exact h.symm
  rw [hfi]
  simp only [List.mem_cons, List.not_mem_nil, or_false] at hmem
  rcases hmem with h3 | h3 | h3 | h3 | h3 | h3 | h3 <;> simp [h3]

theorem processEntry_jpeg (e : DirEntry) (hw : e.walkErr = false)
    (hd : e.isDir = false) (hs : e.statErr = false) (hx : entryExt e = "jpeg") :
    processEntry e =
      some { Path := e.path, ModTime := e.modTime, Ext := "jpg", Size := e.size } := by
  have hall : extAllowed "jpeg" = true := by decide
  simp [processEntry, hw, hd, hs, hx, hall]

theorem processEntry_excluded (e : DirEntry)
    (h : entryExt e = "" ∨ extAllowed (entryExt e) = false) :
    processEntry e = none := by
  by_cases hw : e.walkErr
  · simp [processEntry, hw]
  by_cases hd : e.isDir
  · simp [processEntry, hw, hd]
  rcases h with h | h
  · simp [processEntry, hw, hd, h]
  · by_cases h1 : entryExt e = ""
    · simp [processEntry, hw, hd, h1]
    · simp [processEntry, hw, hd, h1, h]

theorem scanDirectory_fst (entries : List DirEntry) :
    (scanDirectory entries).1 = entries.filterMap processEntry := by
  induction entries with
  | nil => rfl
  | cons e rest ih =>
    simp only [scanDirectory, List.filterMap_cons]
    cases h : processEntry e <;> simp [h, ih]

theorem scanDirectory_counts (entries : List DirEntry) (k : String) :
    (scanDirectory entries).2 k =
      ((scanDirectory entries).1.filter (fun fi => fi.Ext == k)).length := by
  induction entries with
  | nil => simp [scanDirectory]
  | cons e rest ih =>
    simp only [scanDirectory]
    cases h : processEntry e with
    | none => simpa [h] using ih
    | some fi =>
      simp only [h, List.filter_cons]
      by_cases hk : k = fi.Ext
      · subst hk
        simp [ih]
      · have hb : (fi.Ext == k) = false := by
          simp [Ne.symm hk]
        simp [hk, hb, ih]

theorem scan_counts_jpeg_zero (entries : List DirEntry) :
    (scanDirectory entries).2 "jpeg" = 0 := by
  rw [scanDirectory_counts, List.length_eq_zero, List.filter_eq_nil_iff]
  intro fi hfi
  rw [scanDirectory_fst] at hfi
  obtain ⟨e, _, he⟩ := List.mem_filterMap.mp hfi
  have hm := processEntry_ext_mem e fi he
  simp only [List.mem_cons, List.not_mem_nil, or_false] at hm
  have hne : fi.Ext ≠ "jpeg" := by
    rcases hm with h | h | h | h | h | h <;> simp [h]
  simp [hne]

/-- C4: the scanner never counts anything under the key `jpeg`; every
FileDescriptor it returns carries a normalized extension from
{jpg, png, bmp, tiff, webp, heic}; an accepted file whose derived extension
is the literal `jpeg` is recorded with extension `jpg`; files with no
extension or an extension outside the allow-set produce no FileDescriptor;
and the count map counts exactly the returned descriptors per extension. -/
theorem scanner_normalizes_jpeg (entries : List DirEntry) :
    (scanDirectory entries).2 "jpeg" = 0 ∧
    (∀ fi ∈ (scanDirectory entries).1,
        fi.Ext ∈ ["jpg", "png", "bmp", "tiff", "webp", "heic"]) ∧
    (∀ e : DirEntry, e.walkErr = false → e.isDir = false → e.statErr = false →
        entryExt e = "jpeg" →
        processEntry e =
          some { Path := e.path, ModTime := e.modTime, Ext := "jpg", Size := e.size }) ∧
    (∀ e : DirEntry, entryExt e = "" ∨ extAllowed (entryExt e) = false →
        processEntry e = none) ∧
    (scanDirectory entries).1 = entries.filterMap processEntry ∧
    (∀ k, (scanDirectory entries).2 k =
        ((scanDirectory entries).1.filter (fun fi => fi.Ext == k)).length) := by
  refine ⟨scan_counts_jpeg_zero entries, ?_, ?_, ?_, scanDirectory_fst entries,
    fun k => scanDirectory_counts entries k⟩
  · intro fi hfi
    rw [scanDirectory_fst] at hfi
    obtain ⟨e, _, he⟩ := List.mem_filterMap.mp hfi
    exact processEntry_ext_mem e fi he
  · exact fun e hw hd hs hx => processEntry_jpeg e hw hd hs hx
  · exact fun e h => processEntry_excluded e h

/-- Walk entry of the scanner witness: a regular `.JPEG` file. -/
def eJpeg : DirEntry :=
  { path := "d/x.JPEG", isDir := false, walkErr := false, statErr := false,
    modTime := ⟨2024, 1, 2⟩, size := 5 }

/-- Walk entry of the scanner witness: a regular file without extension. -/
def eNoExt : DirEntry :=
  { path := "d/readme", isDir := false, walkErr := false, statErr := false,
    modTime := ⟨2024, 1, 2⟩, size := 7 }

theorem scanner_normalizes_jpeg_witness :
    (scanDirectory [eJpeg, eNoExt]).2 "jpeg" = 0 ∧
    processEntry eJpeg =
      some { Path := "d/x.JPEG", ModTime := ⟨2024, 1, 2⟩, Ext := "jpg", Size := 5 } ∧
    processEntry eNoExt = none :=
  ⟨(scanner_normalizes_jpeg [eJpeg, eNoExt]).1,
   (scanner_normalizes_jpeg [eJpeg, eNoExt]).2.2.1 eJpeg rfl rfl rfl (by decide),
   (scanner_normalizes_jpeg [eJpeg, eNoExt]).2.2.2.1 eNoExt (Or.inl (by decide))⟩

/-! ## Format normalization before filtering and the fatal check -/

/-- C10: the requested format is normalized (one leading dot stripped,
lowercased, `jpeg` folded to `jpg`) before any use; a request normalizing
to `jpg` selects exactly the files the scanner classified as `jpg`; and the
no-files fatal check, evaluated at the normalized key, fails exactly when
no scanned file carries that normalized extension. -/
theorem format_normalized_before_use (entries : List DirEntry) (raw : String) :
    (normalizeFormat "jpeg" = "jpg" ∧ normalizeFormat ".JPEG" = "jpg" ∧
      normalizeFormat ".PnG" = "png") ∧
    (normalizeFormat raw = "jpg" →
      selectToConvert (scanDirectory entries).1 (normalizeFormat raw) =
        (scanDirectory entries).1.filter (fun f => f.Ext == "jpg")) ∧
    (formatCheckFails (scanDirectory entries).2 (normalizeFormat raw) = true ↔
      selectToConvert (scanDirectory entries).1 (normalizeFormat raw) = []) := by
  refine ⟨⟨by decide, by decide, by decide⟩, ?_, ?_⟩
  · intro h
    rw [h, selectToConvert]
  · rw [formatCheckFails, selectToConvert, scanDirectory_counts]
    constructor
    · intro h
      rwa [beq_iff_eq, List.length_eq_zero] at h
    · intro h
      rw [beq_iff_eq, List.length_eq_zero]
      exact h

theorem format_normalized_before_use_witness :
    selectToConvert (scanDirectory [eJpeg]).1 (normalizeFormat ".JPEG") =
      (scanDirectory [eJpeg]).1.filter (fun f => f.Ext == "jpg") :=
  (format_normalized_before_use [eJpeg] ".JPEG").2.1 (by decide)

/-! ## Lemmas about the worker -/

theorem append_avif_ne_empty (s : String) : s ++ ".avif" ≠ "" := by
  intro h
  have hlen := congrArg String.length h
  rw [String.length_append] at hlen
  have h5 : (".avif" : String).length = 5 := rfl
  have h0 : ("" : String).length = 0 := rfl
  omega

theorem joinPath_ne_empty (d s : String) (hs : s ≠ "") : joinPath d s ≠ "" := by
  rw [joinPath]
  by_cases hd : d = ""
  · rw [if_pos hd]; exact hs
  · rw [if_neg hd]
    intro h
    have hlen := congrArg String.length h
    rw [String.length_append, String.length_append] at hlen
    have h1 : ("/" : String).length = 1 := rfl
    have h0 : ("" : String).length = 0 := rfl
    omega

theorem makeOutputFilename_ne_empty (f : FileInfo) (pfx : String) (kn : Bool)
    (ent : Entropy) : makeOutputFilename f pfx kn ent ≠ "" := by
  rw [makeOutputFilename]
  cases kn
  · by_cases hp : pfx ≠ ""
    · rw [if_neg (by simp), if_pos hp]; exact append_avif_ne_empty _
    · rw [if_neg (by simp), if_neg hp]; exact append_avif_ne_empty _
  · by_cases hp : pfx ≠ ""
    · rw [if_pos rfl, if_pos hp]; exact append_avif_ne_empty _
    · rw [if_pos rfl, if_neg hp]; exact append_avif_ne_empty _

theorem ensureUniquePath_ok_ne_empty (ex : String → Bool) (path q : String)
    (hp : path ≠ "") (h : ensureUniquePath ex path = Except.ok q) : q ≠ "" := by
  rw [ensureUniquePath] at h
  by_cases hex : ex path = false
  · rw [if_pos hex] at h
    injection h with h
    rw [← h]
    exact hp
  · rw [if_neg hex] at h
    obtain ⟨n, _, _, h3, _, _⟩ := uniqueFrom_ok_spec ex path _ _ _ 999 1 q h
    rw [h3]
    apply joinPath_ne_empty
    intro hc
    have hlen := congrArg String.length hc
    rw [String.length_append, String.length_append, String.length_append] at hlen
    have h1 : ("-" : String).length = 1 := rfl
    have h0 : ("" : String).length = 0 := rfl
    omega

/-- C6: every branch of the per-job state machine — name-allocation
failure, temp-creation failure, encoder failure, rename-and-copy failure,
stat failure and success — emits exactly one ConversionResult. -/
theorem worker_emits_one_result (env : WorkerEnv) (fi : FileInfo)
    (outDir pfx : String) (kn : Bool) :
    (processJob env fi outDir pfx kn).emitted.length = 1 := by
  obtain ⟨ex, tf, ee, ro, ce, ss, ent⟩ := env
  cases h : ensureUniquePath ex (joinPath outDir (makeOutputFilename fi pfx kn ent)) <;>
    cases tf <;> cases ee <;> cases ro <;> cases ce <;> cases ss <;>
      simp [processJob, encodeStage, placeStage, statStage, h]

/-- C7: once the temp file is created, no branch of the job leaves it on
disk — it is removed on encoder failure, consumed by a successful rename,
and removed after a copy fallback or a rename-and-copy failure. The
hypothesis records that `os.CreateTemp` returned a fresh name distinct
from the resolved destination. -/
theorem worker_leaves_no_temp (env : WorkerEnv) (fi : FileInfo)
    (outDir pfx : String) (kn : Bool) (tmp : String)
    (htmp : (processJob env fi outDir pfx kn).tmpPath = some tmp)
    (hne : ∀ q, uniqueOutcome env fi outDir pfx kn = Except.ok q → q ≠ tmp) :
    tmpExistsAfter tmp (processJob env fi outDir pfx kn).actions = false := by
  obtain ⟨ex, tf, ee, ro, ce, ss, ent⟩ := env
  cases h : ensureUniquePath ex (joinPath outDir (makeOutputFilename fi pfx kn ent)) with
  | error e => simp [processJob, h] at htmp
  | ok uq =>
    have huq : uq ≠ tmp := hne uq (by simpa [uniqueOutcome] using h)
    cases tf with
    | none => simp [processJob, h] at htmp
    | some t =>
      have ht : t = tmp := by simpa [processJob, h] using htmp
      subst ht
      cases ee <;> cases ro <;> cases ce <;> cases ss <;>
        simp [processJob, encodeStage, placeStage, statStage, tmpExistsAfter, h, huq]

/-- Source file of the worker witness scenarios. -/
def fi0 : FileInfo :=
  { Path := "in/a.jpg", ModTime := ⟨2024, 1, 2⟩, Ext := "jpg", Size := 100 }

/-- Worker environment where rename fails and the copy fallback succeeds. -/
def envCopy : WorkerEnv :=
  { fsExists := fun _ => false, tempFile := some "out/avif_tmp_7.avif",
    encoderErr := none, renameOk := false, copyErr := none,
    statSize := some 10, entropy := Entropy.bytes 1 2 3 }

theorem worker_leaves_no_temp_witness :
    tmpExistsAfter "out/avif_tmp_7.avif"
      (processJob envCopy fi0 "out" "" true).actions = false :=
  worker_leaves_no_temp envCopy fi0 "out" "" true "out/avif_tmp_7.avif" (by decide)
    (fun q hq => by
      rw [show uniqueOutcome envCopy fi0 "out" "" true = Except.ok "out/a.avif" by rfl] at hq
      injection hq with hq
      rw [← hq]
      decide)

/-- Pairing invariant the C2 claim asserts of every emitted result:
destination path and converted size populated together or not at all. -/
def resultPairingClaim (r : ConvertResult) : Prop :=
  (r.Err ≠ none → r.Dst = "" ∧ r.ConvBytes = 0) ∧
  (r.Err = none → r.Dst ≠ "" ∧ r.ConvBytes ≠ 0)

/-- Worker environment where the encoder exits non-zero. -/
def envEncFail : WorkerEnv :=
  { fsExists := fun _ => false, tempFile := some "out/avif_tmp_1.avif",
    encoderErr := some "exit status 1", renameOk := true, copyErr := none,
    statSize := some 10, entropy := Entropy.bytes 1 2 3 }

/-- C2 counterexample: an encoder failure produces a result whose error is
set and whose destination path is also set (the worker stores the resolved
unique path before creating the temp file), so destination path and
converted size are not populated together-or-not-at-all. -/
theorem result_pairing_cex :
    (processJob envEncFail fi0 "out" "" true).emitted =
      [{ Src := "in/a.jpg", Dst := "out/a.avif", OrigBytes := 100, ConvBytes := 0,
         Err := some "avifenc failed: exit status 1" }] ∧
    ¬ resultPairingClaim
        { Src := "in/a.jpg", Dst := "out/a.avif", OrigBytes := 100, ConvBytes := 0,
          Err := some "avifenc failed: exit status 1" } := by
  constructor
  · decide
  · intro hcl
    exact absurd (hcl.1 (by simp)).1 (by decide)

/-- C2 amended: converted size is set (to the statted size) exactly on
success; every failure result has converted size unset; and the
destination path is unset exactly when unique-path allocation failed —
failures after that point carry the destination path set. -/
theorem result_fields_by_stage (env : WorkerEnv) (fi : FileInfo)
    (outDir pfx : String) (kn : Bool) :
    ∀ r ∈ (processJob env fi outDir pfx kn).emitted,
      (r.Err = none → r.Dst ≠ "" ∧ env.statSize = some r.ConvBytes) ∧
      (r.Err ≠ none → r.ConvBytes = 0) ∧
      (r.Dst = "" ↔ ∃ msg, uniqueOutcome env fi outDir pfx kn = Except.error msg) := by
  obtain ⟨ex, tf, ee, ro, ce, ss, ent⟩ := env
  intro r hr
  cases h : ensureUniquePath ex (joinPath outDir (makeOutputFilename fi pfx kn ent)) with
  | error e =>
    simp [processJob, h] at hr
    subst hr
    exact ⟨by simp, by simp, by simp [uniqueOutcome, h]⟩
  | ok uq =>
    have huq : uq ≠ "" :=
      ensureUniquePath_ok_ne_empty ex _ uq
        (joinPath_ne_empty _ _ (makeOutputFilename_ne_empty fi pfx kn ent)) h
    cases tf with
    | none =>
      simp [processJob, h] at hr
      subst hr
      exact ⟨by simp, by simp, by simp [uniqueOutcome, h, huq]⟩
    | some t =>
      cases ee <;> cases ro <;> cases ce <;> cases ss <;>
        (simp [processJob, encodeStage, placeStage, statStage, h] at hr; subst hr;
         refine ⟨?_, ?_, ?_⟩ <;> simp [uniqueOutcome, h, huq])

/-- Worker environment where every step succeeds via rename. -/
def envOk : WorkerEnv :=
  { fsExists := fun _ => false, tempFile := some "out/avif_tmp_2.avif",
    encoderErr := none, renameOk := true, copyErr := none,
    statSize := some 10, entropy := Entropy.bytes 1 2 3 }

theorem result_fields_by_stage_witness :
    ("out/a.avif" : String) ≠ "" ∧ envOk.statSize = some 10 :=
  (result_fields_by_stage envOk fi0 "out" "" true
      { Src := "in/a.jpg", Dst := "out/a.avif", OrigBytes := 100, ConvBytes := 10,
        Err := none }
      (by decide)).1 rfl

/-! ## Lemmas about the namer's token and date -/

/-- Lowercase hexadecimal digit test. -/
def isHexChar (c : Char) : Bool :=
  c.isDigit || ('a' ≤ c && c ≤ 'f')

/-- Whether every character of the string is a lowercase hex digit. -/
def isHexString (s : String) : Bool :=
  s.data.all isHexChar

theorem digitChar_hex (n : Nat) (h : n < 16) : isHexChar (Nat.digitChar n) = true := by
  interval_cases n <;> decide

theorem digitChar_digit (n : Nat) (h : n < 10) : (Nat.digitChar n).isDigit = true := by
  interval_cases n <;> decide

theorem hexByte_hex (b : Nat) : isHexString (hexByte b) = true := by
  have h1 := digitChar_hex (b / 16 % 16) (Nat.mod_lt _ (by omega))
  have h2 := digitChar_hex (b % 16) (Nat.mod_lt _ (by omega))
  simp [hexByte, isHexString, h1, h2]

theorem hexNoPad_spec (n : Nat) :
    1 ≤ (hexNoPad n).length ∧ isHexString (hexNoPad n) = true := by
  induction n using Nat.strong_induction_on with
  | _ n ih =>
    rw [hexNoPad]
    by_cases h : n < 16
    · rw [if_pos h]
      exact ⟨by simp, by simpa [isHexString] using digitChar_hex n h⟩
    · rw [if_neg h]
      obtain ⟨ih1, ih2⟩ := ih (n / 16) (Nat.div_lt_self (by omega) (by omega))
      constructor
      · rw [String.length_append]
        omega
      · have hd := digitChar_hex (n % 16) (Nat.mod_lt _ (by omega))
        simp only [isHexString, String.data_append] at ih2 ⊢
        simp [List.all_append, ih2, hd]

theorem hexNoPad_length_le : ∀ k n : Nat, n < 16 ^ k → 1 ≤ k → (hexNoPad n).length ≤ k := by
  intro k
  induction k with
  | zero => intro n h h1; omega
  | succ k ih =>
    intro n h _
    rw [hexNoPad]
    by_cases hn : n < 16
    · rw [if_pos hn]
      simp
    · rw [if_neg hn]
      have h16 : n / 16 < 16 ^ k := by
        rw [Nat.div_lt_iff_lt_mul (by omega)]
        calc n < 16 ^ (k + 1) := h
          _ = 16 ^ k * 16 := by ring
      have hk : 1 ≤ k := by
        rcases Nat.eq_zero_or_pos k with hk0 | hk0
        · subst hk0
          simp at h
          omega
        · exact hk0
      have := ih (n / 16) h16 hk
      have hone : (String.mk [Nat.digitChar (n % 16)]).length = 1 := rfl
      rw [String.length_append, hone]
      omega

/-- Token property the C5 claim asserts of every entropy outcome: a valid
6-hex-character token. -/
def tokenSixHex (ent : Entropy) : Prop :=
  (rndToken ent).length = 6 ∧ isHexString (rndToken ent) = true

/-- C5 counterexample: when crypto-random generation fails at a wall clock
whose masked nanosecond count is 0, the fallback token is "0" — one hex
character, not six, because `fmt.Sprintf("%x", …)` does not zero-pad. -/
theorem fallback_token_cex :
    rndToken (Entropy.failWithClock 0) = "0" ∧
    ¬ tokenSixHex (Entropy.failWithClock 0) ∧
    ¬ (∀ ent : Entropy, tokenSixHex ent) := by
  have h0 : rndToken (Entropy.failWithClock 0) = "0" := by
    simp only [rndToken]
    rw [show (0 % 0x10000000 : Nat) = 0 from rfl, hexNoPad]
    decide
  refine ⟨h0, ?_, ?_⟩
  · intro h
    obtain ⟨h1, _⟩ := h
    rw [h0] at h1
    exact absurd h1 (by decide)
  · intro h
    obtain ⟨h1, _⟩ := h (Entropy.failWithClock 0)
    rw [h0] at h1
    exact absurd h1 (by decide)

/-- C5 amended: in timestamped mode the output is
`[prefix_]YYYYMMDD_token.avif` with an 8-digit date; the crypto-random
token is exactly 6 hex characters; the clock fallback never fails and
yields a nonempty lowercase-hex token of at most 7 characters, but not
necessarily 6. -/
theorem timestamped_name_format (f : FileInfo) (pfx : String) (ent : Entropy) :
    makeOutputFilename f pfx false ent =
      (if pfx ≠ "" then pfx ++ "_" else "") ++ formatYYYYMMDD f.ModTime ++ "_" ++
        rndToken ent ++ ".avif" ∧
    (formatYYYYMMDD f.ModTime).length = 8 ∧
    (formatYYYYMMDD f.ModTime).data.all Char.isDigit = true ∧
    isHexString (rndToken ent) = true ∧
    1 ≤ (rndToken ent).length ∧ (rndToken ent).length ≤ 7 ∧
    (∀ b0 b1 b2, ent = Entropy.bytes b0 b1 b2 → (rndToken ent).length = 6) := by
  refine ⟨?_, ?_, ?_, ?_, ?_, ?_, ?_⟩
  · rw [makeOutputFilename]
    by_cases hp : pfx ≠ ""
    · rw [if_neg (by simp), if_pos hp, if_pos hp]
    · rw [if_neg (by simp), if_neg hp, if_neg hp]
      simp
  · simp [formatYYYYMMDD, pad4, pad2, String.length_append]
  · have d1 := digitChar_digit (f.ModTime.year / 1000 % 10) (Nat.mod_lt _ (by omega))
    have d2 := digitChar_digit (f.ModTime.year / 100 % 10) (Nat.mod_lt _ (by omega))
    have d3 := digitChar_digit (f.ModTime.year / 10 % 10) (Nat.mod_lt _ (by omega))
    have d4 := digitChar_digit (f.ModTime.year % 10) (Nat.mod_lt _ (by omega))
    have d5 := digitChar_digit (f.ModTime.month / 10 % 10) (Nat.mod_lt _ (by omega))
    have d6 := digitChar_digit (f.ModTime.month % 10) (Nat.mod_lt _ (by omega))
    have d7 := digitChar_digit (f.ModTime.day / 10 % 10) (Nat.mod_lt _ (by omega))
    have d8 := digitChar_digit (f.ModTime.day % 10) (Nat.mod_lt _ (by omega))
    simp [formatYYYYMMDD, pad4, pad2, String.data_append, List.all_append,
      d1, d2, d3, d4, d5, d6, d7, d8]
  · cases ent with
    | bytes b0 b1 b2 =>
      have h0 := hexByte_hex b0
      have h1 := hexByte_hex b1
      have h2 := hexByte_hex b2
      simp only [rndToken, isHexString, String.data_append, List.all_append] at h0 h1 h2 ⊢
      simp [h0, h1, h2]
    | failWithClock nanos => exact (hexNoPad_spec (nanos % 0x10000000)).2
  · cases ent with
    | bytes b0 b1 b2 => simp [rndToken, hexByte, String.length_append]
    | failWithClock nanos => exact (hexNoPad_spec (nanos % 0x10000000)).1
  · cases ent with
    | bytes b0 b1 b2 =>
      simp [rndToken, hexByte, String.length_append]
    | failWithClock nanos =>
      have hlt : nanos % 0x10000000 < 16 ^ 7 := by
        have := Nat.mod_lt nanos (show 0 < 0x10000000 by omega)
        norm_num at this ⊢
        omega
      exact hexNoPad_length_le 7 (nanos % 0x10000000) hlt (by omega)
  · intro b0 b1 b2 hent
    subst hent
    simp [rndToken, hexByte, String.length_append]

theorem timestamped_name_format_witness :
    (rndToken (Entropy.bytes 1 2 3)).length = 6 :=
  (timestamped_name_format fi0 "vac" (Entropy.bytes 1 2 3)).2.2.2.2.2.2 1 2 3 rfl

/-! ## Lemmas about the dry-run slice -/

theorem dryRunLoop_no_uniq (ents : Nat → Entropy) (outDir pfx : String) (kn : Bool) :
    ∀ fs i p, Event.uniquifierCall p ∉ dryRunLoop ents outDir pfx kn i fs := by
  intro fs
  induction fs with
  | nil => intro i p h; cases h
  | cons f rest ih =>
    intro i p h
    simp only [dryRunLoop, List.mem_cons] at h
    rcases h with h | h | h
    · exact Event.noConfusion h
    · exact Event.noConfusion h
    · exact ih (i + 1) p h

theorem dryRunLoop_no_mkdir (ents : Nat → Entropy) (outDir pfx : String) (kn : Bool) :
    ∀ fs i d, Event.mkdirAll d ∉ dryRunLoop ents outDir pfx kn i fs := by
  intro fs
  induction fs with
  | nil => intro i d h; cases h
  | cons f rest ih =>
    intro i d h
    simp only [dryRunLoop, List.mem_cons] at h
    rcases h with h | h | h
    · exact Event.noConfusion h
    · exact Event.noConfusion h
    · exact ih (i + 1) d h

theorem dryRunLoop_calls (ents : Nat → Entropy) (outDir pfx : String) (kn : Bool) :
    ∀ fs i f, f ∈ fs →
      ∃ o, Event.namerCall f.Path o ∈ dryRunLoop ents outDir pfx kn i fs ∧
        Event.preview f.Path (joinPath outDir o) ∈ dryRunLoop ents outDir pfx kn i fs := by
  intro fs
  induction fs with
  | nil => intro i f h; cases h
  | cons g rest ih =>
    intro i f h
    rcases List.mem_cons.mp h with rfl | h
    · refine ⟨makeOutputFilename f pfx kn (ents i), ?_, ?_⟩ <;>
        simp [dryRunLoop]
    · obtain ⟨o, h1, h2⟩ := ih (i + 1) f h
      refine ⟨o, ?_, ?_⟩ <;> simp only [dryRunLoop, List.mem_cons]
      · exact Or.inr (Or.inr h1)
      · exact Or.inr (Or.inr h2)

theorem applyEvents_no_mkdir :
    ∀ evs dirs, (∀ d, Event.mkdirAll d ∉ evs) → applyEvents dirs evs = dirs := by
  intro evs
  induction evs with
  | nil => intro dirs _; rfl
  | cons e rest ih =>
    intro dirs h
    have hstep : applyEvent dirs e = dirs := by
      cases e with
      | mkdirAll d => exact absurd (List.mem_cons_self _ _) (h d)
      | namerCall s o => rfl
      | uniquifierCall p => rfl
      | preview s d => rfl
    calc applyEvents dirs (e :: rest) = applyEvents (applyEvent dirs e) rest := rfl
      _ = applyEvents dirs rest := by rw [hstep]
      _ = dirs := ih dirs (fun d hd => h d (List.mem_cons_of_mem e hd))

/-- Property the C1 claim asserts of the dry-run slice: for every selected
file both the Namer and the Uniquifier are exercised and a preview is
produced, and no filesystem write of any kind happens (the directory set
is unchanged by the run). -/
def dryRunClaimProp (files : List FileInfo) (fmtN inputFlag outputFlag pfx : String)
    (kn : Bool) (ents : Nat → Entropy) : Prop :=
  (∀ f ∈ selectToConvert files fmtN,
      (∃ o, Event.namerCall f.Path o ∈
          dryRunEvents files fmtN inputFlag outputFlag pfx kn ents) ∧
      (∃ p, Event.uniquifierCall p ∈
          dryRunEvents files fmtN inputFlag outputFlag pfx kn ents) ∧
      (∃ d, Event.preview f.Path d ∈
          dryRunEvents files fmtN inputFlag outputFlag pfx kn ents)) ∧
  (∀ dirs, applyEvents dirs (dryRunEvents files fmtN inputFlag outputFlag pfx kn ents) = dirs)

/-- Entropy stream of the dry-run scenarios. -/
def ents0 : Nat → Entropy := fun _ => Entropy.bytes 0 0 0

/-- C1 counterexample: on one selected `jpg` file with output directory
"out" absent, the dry-run slice never calls the Uniquifier (main's dry-run
loop only calls the Namer) and its `os.MkdirAll` — executed before the
dry-run branch — creates "out", so a filesystem write does occur. -/
theorem dry_run_claim_cex :
    fi0 ∈ selectToConvert [fi0] "jpg" ∧
    ¬ (∃ p, Event.uniquifierCall p ∈ dryRunEvents [fi0] "jpg" "in" "out" "" true ents0) ∧
    applyEvents [] (dryRunEvents [fi0] "jpg" "in" "out" "" true ents0) = ["out"] ∧
    ¬ dryRunClaimProp [fi0] "jpg" "in" "out" "" true ents0 := by
  have hev : dryRunEvents [fi0] "jpg" "in" "out" "" true ents0 =
      [Event.mkdirAll "out", Event.namerCall "in/a.jpg" "a.avif",
       Event.preview "in/a.jpg" "out/a.avif"] := by decide
  refine ⟨by decide, ?_, ?_, ?_⟩
  · rintro ⟨p, hp⟩
    rw [hev] at hp
    simp at hp
  · rw [hev]
    decide
  · intro h
    have h2 := h.2 []
    rw [hev] at h2
    exact absurd h2 (by decide)

/-- C1 amended: in dry-run mode every selected file gets a Namer call and
a preview destination path joined from the output directory and the
generated name; the Uniquifier is never exercised; and the only filesystem
write of the slice is the `os.MkdirAll` on the output directory (executed
before the dry-run branch), which creates that directory when missing and
changes nothing else. -/
theorem dry_run_behavior (files : List FileInfo)
    (fmtN inputFlag outputFlag pfx : String) (kn : Bool) (ents : Nat → Entropy) :
    (∀ f ∈ selectToConvert files fmtN,
        ∃ o, Event.namerCall f.Path o ∈
            dryRunEvents files fmtN inputFlag outputFlag pfx kn ents ∧
          Event.preview f.Path
              (joinPath (if outputFlag = "" then inputFlag else outputFlag) o) ∈
            dryRunEvents files fmtN inputFlag outputFlag pfx kn ents) ∧
    (∀ p, Event.uniquifierCall p ∉
        dryRunEvents files fmtN inputFlag outputFlag pfx kn ents) ∧
    (∀ dirs, applyEvents dirs (dryRunEvents files fmtN inputFlag outputFlag pfx kn ents) =
        if dirs.contains (if outputFlag = "" then inputFlag else outputFlag) then dirs
        else (if outputFlag = "" then inputFlag else outputFlag) :: dirs) := by
  refine ⟨?_, ?_, ?_⟩
  · intro f hf
    obtain ⟨o, h1, h2⟩ :=
      dryRunLoop_calls ents (if outputFlag = "" then inputFlag else outputFlag) pfx kn
        (selectToConvert files fmtN) 0 f hf
    exact ⟨o, List.mem_cons_of_mem _ h1, List.mem_cons_of_mem _ h2⟩
  · intro p hp
    rcases List.mem_cons.mp hp with h | h
    · exact Event.noConfusion h
    · exact dryRunLoop_no_uniq ents _ pfx kn (selectToConvert files fmtN) 0 p h
  · intro dirs
    have hrest : applyEvents
        (applyEvent dirs
          (Event.mkdirAll (if outputFlag = "" then inputFlag else outputFlag)))
        (dryRunLoop ents (if outputFlag = "" then inputFlag else outputFlag) pfx kn 0
          (selectToConvert files fmtN)) =
        applyEvent dirs
          (Event.mkdirAll (if outputFlag = "" then inputFlag else outputFlag)) :=
      applyEvents_no_mkdir _ _
        (fun d hd => dryRunLoop_no_mkdir ents _ pfx kn (selectToConvert files fmtN) 0 d hd)
    calc applyEvents dirs (dryRunEvents files fmtN inputFlag outputFlag pfx kn ents)
        = applyEvents
            (applyEvent dirs
              (Event.mkdirAll (if outputFlag = "" then inputFlag else outputFlag)))
            (dryRunLoop ents (if outputFlag = "" then inputFlag else outputFlag) pfx kn 0
              (selectToConvert files fmtN)) := rfl
      _ = applyEvent dirs
            (Event.mkdirAll (if outputFlag = "" then inputFlag else outputFlag)) := hrest
      _ = _ := rfl

theorem dry_run_behavior_witness :
    ∃ o, Event.namerCall "in/a.jpg" o ∈ dryRunEvents [fi0] "jpg" "in" "out" "" true ents0 ∧
      Event.preview "in/a.jpg" (joinPath (if "out" = "" then "in" else "out") o) ∈
        dryRunEvents [fi0] "jpg" "in" "out" "" true ents0 :=
  (dry_run_behavior [fi0] "jpg" "in" "out" "" true ents0).1 fi0 (by decide)

end AvifConverter
